import Mathlib

/-!
Verification of the progress data model and solve-mode session engine of a
terminal progress-tracking dashboard (`dashboard.py`).

The Python source is shallowly embedded: the JSON progress document becomes a
family of structures, every Store mutation becomes a pure function from the
old store to the new one, and the external world (filesystem contents after an
editor run, the random index drawn by `random.choice`) is passed in as an
explicit oracle argument.  Python's unbounded `int` is modelled as `Int`,
`str` as `String`, exceptions as `Except`, and a dictionary field update as a
structure update.
-/

namespace Dashboard

/-- Character-level model of Python's `str.replace(pattern, replacement)` for a
one-character pattern: every occurrence of the character `pat` is replaced by
the string `rep`.  (All four `.replace` calls in `dashboard.py` use a
one-character pattern, where this is exactly Python's semantics.) -/
def pyReplace (s : String) (pat : Char) (rep : String) : String :=
  ⟨s.data.flatMap (fun ch => if ch = pat then rep.data else [ch])⟩

/-- True when `sep` occurs at the head of `s` (list-of-characters view). -/
def startsWithList : List Char → List Char → Bool
  | _, [] => true
  | [], _ :: _ => false
  | c :: cs, d :: ds => c = d && startsWithList cs ds

/-- Character-level model of Python's `s.split(sep)[0]` for a non-empty `sep`:
the part of `s` before the first occurrence of `sep` (all of `s` when `sep`
does not occur). -/
def pySplitHead (s sep : List Char) : List Char :=
  match s with
  | [] => []
  | c :: rest => if startsWithList (c :: rest) sep then [] else c :: pySplitHead rest sep

/-! ## The progress document (the JSON data model, spec §3) -/

/-- Model of the `meta` object of the progress document. -/
structure MetaData where
  start_date : String
  last_updated : String
  total_days_active : Int
  streak_days : Int
deriving DecidableEq

/-- Model of a leetcode Topic: `{name, solved, target, problems}`. -/
structure Topic where
  name : String
  solved : Int
  target : Int
  problems : List String
deriving DecidableEq

/-- Model of a leetcode Phase: `{id, name, solved, target, topics}`. -/
structure Phase where
  id : Int
  name : String
  solved : Int
  target : Int
  topics : List Topic
deriving DecidableEq

/-- Model of the `leetcode` object: `{total_solved, total_target, phases}`. -/
structure Leetcode where
  total_solved : Int
  total_target : Int
  phases : List Phase
deriving DecidableEq

/-- Model of a systems topic: `{name, completed, subtopics}` (`subtopics` is
display-only and never mutated). -/
structure SystemsTopic where
  name : String
  completed : Bool
  subtopics : List String
deriving DecidableEq

/-- Model of a systems Module: `{name, topics}`. -/
structure Module where
  name : String
  topics : List SystemsTopic
deriving DecidableEq

/-- Model of the `systems` object: `{modules}`. -/
structure Systems where
  modules : List Module
deriving DecidableEq

/-- Model of the whole progress document. -/
structure Data where
  meta : MetaData
  leetcode : Leetcode
  systems : Systems
deriving DecidableEq

/-- Model of the `ProgressData` object: the in-memory document together with
the (parsed) contents of the backing JSON file it persists to. -/
structure Store where
  data : Data
  file : Data
deriving DecidableEq

/-! ## Store operations (`ProgressData`, dashboard.py lines 25-85) -/

/-- Errors `ProgressData.load` can raise: `FileNotFoundError` for a missing
backing file, and a JSON decoding error for an unparsable one. -/
inductive LoadError where
  | notFound (msg : String)
  | corrupt (msg : String)
deriving DecidableEq

/-- Model of `ProgressData.load` (lines 32-38).  The filesystem is the oracle
`fs` (path ↦ contents when the path exists), and `json.load` is the oracle
`parse` (raising = `.error`).  A missing path raises `FileNotFoundError`;
otherwise the parsed document is returned. -/
def load (fs : String → Option String) (parse : String → Except String Data)
    (filepath : String) : Except LoadError Data :=
  match fs filepath with
  | none => .error (.notFound ("Progress file(JSON) not found: " ++ filepath))
  | some content =>
    match parse content with
    | .ok d => .ok d
    | .error e => .error (.corrupt e)

/-- Model of `ProgressData.save` (lines 40-44): sets `meta.last_updated` to the
current date (`today`) and writes the whole document to the backing file. -/
def save (s : Store) (today : String) : Store :=
  let data' := { s.data with meta := { s.data.meta with last_updated := today } }
  { data := data', file := data' }

/-- Sum of the `solved` fields of a list of topics:
`sum(t['solved'] for t in phase['topics'])` (line 57). -/
def topicsSolvedSum (topics : List Topic) : Int :=
  (topics.map (·.solved)).sum

/-- Sum of the `solved` fields of a list of phases:
`sum(p['solved'] for p in self.data['leetcode']['phases'])` (line 61). -/
def phasesSolvedSum (phases : List Phase) : Int :=
  (phases.map (·.solved)).sum

/-- Inner loop of `add_problem` (lines 50-55): scan the topics of the matched
phase; on the first topic whose `name` equals `topic_name`, append
`problem_name` to its `problems` (unless already present) and set
`solved = len(problems)`; then `break` (topics after the match are untouched). -/
def updateTopicList (topics : List Topic) (topic_name problem_name : String) : List Topic :=
  match topics with
  | [] => []
  | t :: rest =>
    if t.name == topic_name then
      (if t.problems.contains problem_name then t
       else
         let ps := t.problems ++ [problem_name]
         { t with problems := ps, solved := (ps.length : Int) }) :: rest
    else t :: updateTopicList rest topic_name problem_name

/-- Outer loop of `add_problem` (lines 48-58): scan the phases; on the first
phase whose `id` equals `phase_id`, run the topic scan and unconditionally
recompute that phase's `solved` as the sum over its topics; then `break`. -/
def updatePhaseList (phases : List Phase) (phase_id : Int)
    (topic_name problem_name : String) : List Phase :=
  match phases with
  | [] => []
  | ph :: rest =>
    if ph.id == phase_id then
      let topics' := updateTopicList ph.topics topic_name problem_name
      { ph with topics := topics', solved := topicsSolvedSum topics' } :: rest
    else ph :: updatePhaseList rest phase_id topic_name problem_name

/-- Model of `ProgressData.add_problem` (lines 46-62): run the phase/topic
scan, then unconditionally recompute `leetcode.total_solved` as the sum over
all phases, and persist via `save()`. -/
def add_problem (s : Store) (today : String) (phase_id : Int)
    (topic_name problem_name : String) : Store :=
  let phases' := updatePhaseList s.data.leetcode.phases phase_id topic_name problem_name
  let data' := { s.data with
    leetcode := { s.data.leetcode with
      phases := phases'
      total_solved := phasesSolvedSum phases' } }
  save { s with data := data' } today

/-- Inner loop of `toggle_systems_topic` (lines 68-72) on one module's topics:
the first topic whose `name` equals `topic_name` has `completed` flipped, and
the new value is returned; `none` when no topic matches. -/
def toggleTopics (topics : List SystemsTopic) (topic_name : String) :
    Option (List SystemsTopic × Bool) :=
  match topics with
  | [] => none
  | t :: rest =>
    if t.name == topic_name then
      some (({ t with completed := !t.completed }) :: rest, !t.completed)
    else
      match toggleTopics rest topic_name with
      | some (rest', v) => some (t :: rest', v)
      | none => none

/-- Outer loop of `toggle_systems_topic` (lines 66-72): modules are scanned in
order; a module whose `name` equals `module_name` has its topics scanned; a hit
returns immediately, a miss falls through to the remaining modules (the Python
loop has no `break`). -/
def toggleModules (modules : List Module) (module_name topic_name : String) :
    Option (List Module × Bool) :=
  match modules with
  | [] => none
  | m :: rest =>
    if m.name == module_name then
      match toggleTopics m.topics topic_name with
      | some (ts', v) => some (({ m with topics := ts' }) :: rest, v)
      | none =>
        match toggleModules rest module_name topic_name with
        | some (rest', v) => some (m :: rest', v)
        | none => none
    else
      match toggleModules rest module_name topic_name with
      | some (rest', v) => some (m :: rest', v)
      | none => none

/-- Model of `ProgressData.toggle_systems_topic` (lines 64-73): on a hit the
flip is persisted via `save()` and the new `completed` value returned; when the
loops fall through, `False` is returned and nothing is saved. -/
def toggle_systems_topic (s : Store) (today : String)
    (module_name topic_name : String) : Store × Bool :=
  match toggleModules s.data.systems.modules module_name topic_name with
  | some (mods', v) =>
    (save { s with data := { s.data with systems := ⟨mods'⟩ } } today, v)
  | none => (s, false)

/-- Model of `ProgressData.get_all_solved_problems` (lines 75-85): the
flattened list of `(problem_name, topic_name, phase_name, phase_id)` tuples,
one per problem, in document order. -/
def get_all_solved_problems (d : Data) : List (String × String × String × Int) :=
  d.leetcode.phases.flatMap fun phase =>
    phase.topics.flatMap fun topic =>
      topic.problems.map fun problem => (problem, topic.name, phase.name, phase.id)

/-! ## Lookup helpers (stating devices mirroring the code's linear scans) -/

/-- The phase `add_problem`'s outer loop stops at: the first phase whose `id`
equals `phase_id`. -/
def findPhase (d : Data) (phase_id : Int) : Option Phase :=
  d.leetcode.phases.find? (fun ph => ph.id == phase_id)

/-- The topic `add_problem`'s inner loop stops at: the first topic of `ph`
whose `name` equals `topic_name`. -/
def findTopic (ph : Phase) (topic_name : String) : Option Topic :=
  ph.topics.find? (fun t => t.name == topic_name)

/-- The scan order of `toggle_systems_topic` (lines 66-69): the concatenated
topic lists of the modules named `module_name`, in document order. -/
def matchingTopics (modules : List Module) (module_name : String) : List SystemsTopic :=
  (modules.filter (fun m => m.name == module_name)).flatMap (·.topics)

/-- The systems topic `toggle_systems_topic` acts on: the first topic named
`topic_name` in the scan order of the loops of lines 66-69. -/
def findSystemsTopic (d : Data) (module_name topic_name : String) : Option SystemsTopic :=
  (matchingTopics d.systems.modules module_name).find? (fun t => t.name == topic_name)

/-! ## Invariants of the document (spec §3) -/

/-- The structural invariants of §3 of the specification: each phase's
`solved` is the sum of its topics' `solved`, each topic's `solved` is
`length(problems)` and its `problems` are distinct, and `leetcode.total_solved`
is the sum of the phases' `solved`. -/
def SpecInvariants (d : Data) : Prop :=
  (∀ ph ∈ d.leetcode.phases, ph.solved = topicsSolvedSum ph.topics) ∧
  (∀ ph ∈ d.leetcode.phases, ∀ t ∈ ph.topics,
    t.solved = (t.problems.length : Int) ∧ t.problems.Nodup) ∧
  d.leetcode.total_solved = phasesSolvedSum d.leetcode.phases

instance (d : Data) : Decidable (SpecInvariants d) := by
  unfold SpecInvariants; infer_instance

/-! ## Solve-mode session state (`SolveModeScreen`, lines 297-412) -/

/-- Model of `self.current_problem` (line 339): the dict
`{'name', 'topic', 'phase', 'phase_id'}`. -/
structure CurrentProblem where
  name : String
  topic : String
  phase : String
  phase_id : Int
deriving DecidableEq

/-- State of the solve-mode screen: the selected problem, the tracked display
text `self.current_problem_text`, the session entries
`self.session_solutions` (list of `(filename, file_path)` pairs), the session
directory `self.temp_dir`, and the text currently shown by the
`#problem_text` widget. -/
structure SolveState where
  current_problem : Option CurrentProblem
  current_problem_text : String
  session_solutions : List (String × String)
  temp_dir : String
  displayed_problem_text : String
deriving DecidableEq

/-- The message shown by `action_generate` when there are no solved problems
(line 334). -/
def noSolvedMsg : String := "No solved problems found. Solve some problems first!"

/-- Model of `SolveModeScreen.action_generate` (lines 327-353).  The draw made
by `random.choice(solved_problems)` is the oracle index `i` (uniform over
`[0, len)` for the real generator); the store is returned unchanged alongside
the new screen state. -/
def action_generate (s : Store) (st : SolveState) (i : Nat) : Store × SolveState :=
  let solved := get_all_solved_problems s.data
  if solved.isEmpty then
    (s, { st with displayed_problem_text := noSolvedMsg })
  else
    let c := solved.getD i ("", "", "", 0)
    let cur : CurrentProblem := ⟨c.1, c.2.1, c.2.2.1, c.2.2.2⟩
    let txt := "Problem: " ++ c.1 ++ "\n" ++ "Topic: " ++ c.2.1 ++ "\n" ++ "Phase: " ++ c.2.2.1
    (s, { st with
      current_problem := some cur
      current_problem_text := txt
      displayed_problem_text := txt })

/-- Filename computation of `action_edit` (lines 357-365):
`problem_name.replace(" ", "_").replace("(", "").replace(")", "").replace("/", "_") + ".py"`,
or the generic `"solution.py"` when no problem is set. -/
def editFilename (cur : Option CurrentProblem) : String :=
  match cur with
  | some p =>
    (pyReplace (pyReplace (pyReplace (pyReplace p.name ' ' "_") '(' "") ')' "") '/' "_") ++ ".py"
  | none => "solution.py"

/-- The path `action_edit` hands to the editor (lines 367-373): the recorded
path of an existing entry with the same filename, else a fresh path inside the
session directory. -/
def editTargetPath (st : SolveState) : String :=
  let filename := editFilename st.current_problem
  match st.session_solutions.find? (fun sol => sol.1 == filename) with
  | some sol => sol.2
  | none => st.temp_dir ++ "/" ++ filename

/-- The check `file_path.exists() and file_path.stat().st_size > 0` (line 380)
against a filesystem oracle (path ↦ contents when the path exists). -/
def fileSavedNonEmpty (fs : String → Option String) (p : String) : Bool :=
  match fs p with
  | some c => decide (0 < c.length)
  | none => false

/-- Model of `SolveModeScreen.action_edit` (lines 355-389).  The editor run is
opaque; `fsAfter` is the filesystem as the editor left it.  A new entry is
appended (and the one-time saved notice added to the display text) only when
the file is non-empty and no entry with this filename existed before the
call. -/
def action_edit (st : SolveState) (fsAfter : String → Option String) : SolveState :=
  let filename := editFilename st.current_problem
  let existing := st.session_solutions.find? (fun sol => sol.1 == filename)
  let file_path :=
    match existing with
    | some sol => sol.2
    | none => st.temp_dir ++ "/" ++ filename
  if fileSavedNonEmpty fsAfter file_path then
    match existing with
    | none =>
      let base_text :=
        ⟨pySplitHead st.current_problem_text.data ("\n\n[Solution saved").data⟩
      let txt := base_text ++ "\n\n[Solution saved to: " ++ filename ++ "]"
      { st with
        session_solutions := st.session_solutions ++ [(filename, file_path)]
        current_problem_text := txt
        displayed_problem_text := txt }
    | some _ => st
  else st

/-! ## Solution review state (`ViewSolutionsScreen`, lines 185-294) -/

/-- State of the review screen: the session entries it was opened with, the
selected index, the remembered path, and the text of the `#file_content`
widget. -/
structure ViewState where
  session_solutions : List (String × String)
  selected_index : Int
  current_filepath : Option String
  file_content : String
deriving DecidableEq

/-- Model of `ViewSolutionsScreen.show_solution_at_index` (lines 238-258).
Reading the file is the oracle `fsRead` (`.error e` models `open`/`read`
raising an exception whose text is `e`); the `except` branch turns the failure
into an inline error message. -/
def show_solution_at_index (st : ViewState) (fsRead : String → Except String String)
    (idx : Int) : ViewState :=
  if 0 ≤ idx ∧ idx < (st.session_solutions.length : Int) then
    let sol := st.session_solutions.getD idx.toNat ("", "")
    let st1 := { st with selected_index := idx, current_filepath := some sol.2 }
    match fsRead sol.2 with
    | .ok content =>
      { st1 with file_content :=
          "File: " ++ sol.1 ++ "\n" ++ (⟨List.replicate 50 '='⟩ : String) ++ "\n\n" ++ content }
    | .error e =>
      { st1 with file_content := "Error reading file: " ++ e }
  else st

/-! ## Concrete example document (used by witnesses) -/

/-- Example `meta` object. -/
def exMeta : MetaData := ⟨"2025-01-01", "2025-01-01", 10, 3⟩

/-- Example progress document: one phase with one topic holding one solved
problem, and one systems module with one completed topic. -/
def exData : Data :=
  ⟨exMeta,
   ⟨1, 20, [⟨1, "Phase 1", 1, 5, [⟨"Arrays", 1, 3, ["Two Sum"]⟩]⟩]⟩,
   ⟨[⟨"Networking", [⟨"TCP", true, []⟩]⟩]⟩⟩

/-- Example store whose backing file agrees with the in-memory document. -/
def exStore : Store := ⟨exData, exData⟩

/-- Example solve-mode screen state with an empty session workspace. -/
def exSolve : SolveState := ⟨none, "", [], "tmp", ""⟩

/-! ## C7: shape of `get_all_solved_problems` -/

/-- C7: `get_all_solved_problems` has one tuple per problem: its length is the
sum of `length(problems)` over all topics of all phases, and it is the empty
list exactly when every topic's `problems` list is empty. -/
theorem get_all_solved_problems_spec (d : Data) :
    (get_all_solved_problems d).length =
      ((d.leetcode.phases.map
        (fun ph => (ph.topics.map (fun t => t.problems.length)).sum)).sum) ∧
    (get_all_solved_problems d = [] ↔
      ∀ ph ∈ d.leetcode.phases, ∀ t ∈ ph.topics, t.problems = []) := by
  constructor
  · unfold get_all_solved_problems
    rw [List.length_flatMap]
    refine congrArg List.sum (List.map_congr_left ?_)
    intro ph _
    rw [Function.comp_apply, List.length_flatMap]
    refine congrArg List.sum (List.map_congr_left ?_)
    intro t _
    simp
  · simp [get_all_solved_problems]

/-! ## C8: `load` on a missing backing file -/

/-- C8: `load` fails with `FileNotFoundError` exactly on a missing path; in
that case it returns no document at all (no defaulted scaffold), and when the
path exists it never raises `FileNotFoundError`. -/
theorem load_missing_file_spec (fs : String → Option String)
    (parse : String → Except String Data) (filepath : String) :
    (fs filepath = none →
      load fs parse filepath =
        .error (.notFound ("Progress file(JSON) not found: " ++ filepath))) ∧
    (fs filepath = none → ∀ d, load fs parse filepath ≠ .ok d) ∧
    (∀ c, fs filepath = some c → ∀ msg, load fs parse filepath ≠ .error (.notFound msg)) := by
  refine ⟨fun h => by simp [load, h], fun h d => by simp [load, h], fun c hc msg => ?_⟩
  simp only [load, hc]
  cases parse c <;> simp

/-- C8 witness: a filesystem with no file at all makes `load` fail with
`FileNotFoundError`, and a present (even unparsable) file never does. -/
theorem load_missing_file_spec_witness :
    load (fun _ => none) (fun _ => .error "bad json") "progress.json" =
      .error (.notFound ("Progress file(JSON) not found: " ++ "progress.json")) ∧
    (∀ msg, load (fun _ => some "oops") (fun _ => .error "bad json") "progress.json" ≠
      .error (.notFound msg)) :=
  ⟨(load_missing_file_spec (fun _ => none) (fun _ => .error "bad json") "progress.json").1 rfl,
   fun msg =>
    (load_missing_file_spec (fun _ => some "oops") (fun _ => .error "bad json")
      "progress.json").2.2 "oops" rfl msg⟩

/-! ## C9: review survives a read failure -/

/-- C9: for an in-range index whose entry's file read fails,
`show_solution_at_index` displays an inline error message instead of
propagating, and leaves the entries list and the selected index as the
navigation had set them. -/
theorem show_solution_read_failure_spec (st : ViewState)
    (fsRead : String → Except String String) (idx : Int) (e : String)
    (h0 : 0 ≤ idx) (h1 : idx < (st.session_solutions.length : Int))
    (he : fsRead (st.session_solutions.getD idx.toNat ("", "")).2 = .error e) :
    (show_solution_at_index st fsRead idx).file_content = "Error reading file: " ++ e ∧
    (show_solution_at_index st fsRead idx).session_solutions = st.session_solutions ∧
    (show_solution_at_index st fsRead idx).selected_index = idx := by
  simp only [show_solution_at_index, if_pos (And.intro h0 h1), he]
  refine ⟨?_, ?_, ?_⟩ <;> first | rfl | trivial

/-- C9 witness: a one-entry review session whose file was externally deleted
shows the inline error and keeps its entries and selection. -/
theorem show_solution_read_failure_spec_witness :
    (show_solution_at_index ⟨[("f.py", "tmp/f.py")], 0, none, ""⟩
        (fun _ => .error "No such file") 0).file_content =
      "Error reading file: " ++ "No such file" ∧
    (show_solution_at_index ⟨[("f.py", "tmp/f.py")], 0, none, ""⟩
        (fun _ => .error "No such file") 0).session_solutions = [("f.py", "tmp/f.py")] ∧
    (show_solution_at_index ⟨[("f.py", "tmp/f.py")], 0, none, ""⟩
        (fun _ => .error "No such file") 0).selected_index = 0 :=
  show_solution_read_failure_spec ⟨[("f.py", "tmp/f.py")], 0, none, ""⟩
    (fun _ => .error "No such file") 0 "No such file" (by decide) (by decide) rfl

/-! ## C10: the `False` return of `toggle_systems_topic` is ambiguous -/

/-- C10: there is a matched input on which `toggle_systems_topic` returns
`false`: with module `"Networking"` containing topic `"TCP"` whose `completed`
is `true`, the call flips the flag and returns `false` — indistinguishable by
return value from the not-found no-op. -/
theorem toggle_false_return_ambiguous :
    (∃ m ∈ exStore.data.systems.modules, m.name = "Networking" ∧
      ∃ t ∈ m.topics, t.name = "TCP" ∧ t.completed = true) ∧
    (toggle_systems_topic exStore "2025-06-01" "Networking" "TCP").2 = false ∧
    findSystemsTopic (toggle_systems_topic exStore "2025-06-01" "Networking" "TCP").1.data
      "Networking" "TCP" = some ⟨"TCP", false, []⟩ := by
  decide

/-! ## C6: `action_generate` -/

/-- C6: `action_generate` shows the "no problems" sentinel (touching nothing
else) exactly when `get_all_solved_problems` is empty; otherwise, for the
oracle index `i` drawn by `random.choice` (uniform over positions, so the
element draw is uniform), it sets the `i`-th tuple — a member of the list — as
the new current problem, independently of the prior screen state; in both
cases the store (document and backing file) is returned unchanged. -/
theorem action_generate_spec (s : Store) (st st' : SolveState) (i : Nat) :
    (get_all_solved_problems s.data = [] →
      action_generate s st i = (s, { st with displayed_problem_text := noSolvedMsg })) ∧
    (action_generate s st i).1 = s ∧
    (∀ h : i < (get_all_solved_problems s.data).length,
      (action_generate s st i).2.current_problem =
        some ⟨((get_all_solved_problems s.data).get ⟨i, h⟩).1,
              ((get_all_solved_problems s.data).get ⟨i, h⟩).2.1,
              ((get_all_solved_problems s.data).get ⟨i, h⟩).2.2.1,
              ((get_all_solved_problems s.data).get ⟨i, h⟩).2.2.2⟩ ∧
      ((get_all_solved_problems s.data).get ⟨i, h⟩) ∈ get_all_solved_problems s.data ∧
      (action_generate s st i).2.current_problem =
        (action_generate s st' i).2.current_problem) := by
  refine ⟨fun h => by simp [action_generate, h], ?_, fun h => ?_⟩
  · unfold action_generate
    by_cases hE : (get_all_solved_problems s.data).isEmpty <;> simp [hE]
  · have hne : (get_all_solved_problems s.data).isEmpty = false := by
      cases hEq : (get_all_solved_problems s.data).isEmpty
      · rfl
      · exact absurd (List.isEmpty_iff.mp hEq)
          (List.ne_nil_of_length_pos (Nat.lt_of_le_of_lt (Nat.zero_le i) h))
    refine ⟨?_, List.get_mem _ _ _, ?_⟩ <;>
      simp [action_generate, hne, List.getElem?_eq_getElem h]

/-- C6 witness: on the one-problem example document, index 0 picks the only
tuple as the current problem and the store is untouched. -/
theorem action_generate_spec_witness :
    (action_generate exStore exSolve 0).1 = exStore ∧
    (action_generate exStore exSolve 0).2.current_problem =
      some ⟨"Two Sum", "Arrays", "Phase 1", 1⟩ := by
  have h := action_generate_spec exStore exSolve exSolve 0
  refine ⟨h.2.1, ?_⟩
  rw [(h.2.2 (by decide)).1]
  decide

/-! ## C5: toggle lemmas -/

/-- Topics that all miss the name make the inner toggle loop fall through. -/
theorem toggleTopics_none (tname : String) :
    ∀ topics : List SystemsTopic, (∀ t ∈ topics, (t.name == tname) = false) →
      toggleTopics topics tname = none := by
  intro topics
  induction topics with
  | nil => intro _; rfl
  | cons t rest ih =>
    intro h
    have ht := h t (List.mem_cons_self t rest)
    simp only [toggleTopics, ht, Bool.false_eq_true, if_false]
    rw [ih (fun x hx => h x (List.mem_cons_of_mem t hx))]

/-- The inner toggle loop flips exactly the first name match: the topic
`find?` locates.  The flipped topic is what `find?` locates afterwards. -/
theorem toggleTopics_find (tname : String) :
    ∀ (topics : List SystemsTopic) (t0 : SystemsTopic),
      topics.find? (fun t => t.name == tname) = some t0 →
      ∃ ts', toggleTopics topics tname = some (ts', !t0.completed) ∧
        ts'.find? (fun t => t.name == tname) = some { t0 with completed := !t0.completed } := by
  intro topics
  induction topics with
  | nil => intro t0 h; simp at h
  | cons t rest ih =>
    intro t0 h
    cases hnm : t.name == tname with
    | true =>
      simp only [List.find?, hnm] at h
      obtain rfl : t = t0 := by injection h
      refine ⟨{ t with completed := !t.completed } :: rest, ?_, ?_⟩
      · simp only [toggleTopics, hnm, if_true]
      · simp [List.find?, hnm]
    | false =>
      simp only [List.find?, hnm] at h
      obtain ⟨ts'', h1, h2⟩ := ih t0 h
      refine ⟨t :: ts'', ?_, ?_⟩
      · simp only [toggleTopics, hnm, Bool.false_eq_true, if_false, h1]
      · simp only [List.find?, hnm]
        exact h2

/-- Toggling the inner loop twice restores the topic list and negates the
returned value. -/
theorem toggleTopics_double (tname : String) :
    ∀ (topics ts' : List SystemsTopic) (v : Bool),
      toggleTopics topics tname = some (ts', v) →
      toggleTopics ts' tname = some (topics, !v) := by
  intro topics
  induction topics with
  | nil => intro ts' v h; simp [toggleTopics] at h
  | cons t rest ih =>
    intro ts' v h
    cases hnm : t.name == tname with
    | true =>
      simp only [toggleTopics, hnm, if_true, Option.some.injEq, Prod.mk.injEq] at h
      obtain ⟨rfl, rfl⟩ := h
      simp only [toggleTopics, hnm, if_true]
      simp [Bool.not_not]
    | false =>
      simp only [toggleTopics, hnm, Bool.false_eq_true, if_false] at h
      cases hrec : toggleTopics rest tname with
      | none => rw [hrec] at h; simp at h
      | some pr =>
        rw [hrec] at h
        obtain ⟨rest', v'⟩ := pr
        simp only [Option.some.injEq, Prod.mk.injEq] at h
        obtain ⟨rfl, rfl⟩ := h
        simp only [toggleTopics, hnm, Bool.false_eq_true, if_false]
        rw [ih rest' v' hrec]

/-- The outer loop falls through exactly when the scan finds no name match. -/
theorem toggleModules_none (mname tname : String) :
    ∀ modules : List Module,
      (matchingTopics modules mname).find? (fun t => t.name == tname) = none →
      toggleModules modules mname tname = none := by
  intro modules
  induction modules with
  | nil => intro _; rfl
  | cons m rest ih =>
    intro h
    cases hnm : m.name == mname with
    | true =>
      rw [matchingTopics] at h
      simp only [List.filter, hnm] at h
      rw [List.flatMap_cons, List.find?_append] at h
      have h1 : m.topics.find? (fun t => t.name == tname) = none := by
        cases hx : m.topics.find? (fun t => t.name == tname) with
        | none => rfl
        | some t1 => rw [hx] at h; simp [Option.or] at h
      have h2 : (matchingTopics rest mname).find? (fun t => t.name == tname) = none := by
        rw [h1] at h
        simpa [Option.or, matchingTopics] using h
      have htt : toggleTopics m.topics tname = none := by
        refine toggleTopics_none tname m.topics (fun t ht => ?_)
        have := List.find?_eq_none.mp h1 t ht
        simpa using this
      simp only [toggleModules, hnm, if_true, htt]
      rw [ih h2]
    | false =>
      rw [matchingTopics] at h
      simp only [List.filter, hnm] at h
      simp only [toggleModules, hnm, Bool.false_eq_true, if_false]
      rw [ih (by simpa [matchingTopics] using h)]

/-- When the scan finds a topic, `toggleModules` flips exactly it, returns its
new `completed`, and the flipped topic is what the scan finds afterwards. -/
theorem toggleModules_find (mname tname : String) :
    ∀ (modules : List Module) (t0 : SystemsTopic),
      (matchingTopics modules mname).find? (fun t => t.name == tname) = some t0 →
      ∃ mods', toggleModules modules mname tname = some (mods', !t0.completed) ∧
        (matchingTopics mods' mname).find? (fun t => t.name == tname) =
          some { t0 with completed := !t0.completed } := by
  intro modules
  induction modules with
  | nil => intro t0 h; simp [matchingTopics] at h
  | cons m rest ih =>
    intro t0 h
    cases hnm : m.name == mname with
    | true =>
      rw [matchingTopics] at h
      simp only [List.filter, hnm] at h
      rw [List.flatMap_cons, List.find?_append] at h
      cases hx : m.topics.find? (fun t => t.name == tname) with
      | some t1 =>
        rw [hx] at h
        have heq : t1 = t0 := by simpa [Option.or] using h
        rw [heq] at hx
        obtain ⟨ts', h1, h2⟩ := toggleTopics_find tname m.topics t0 hx
        refine ⟨{ m with topics := ts' } :: rest, ?_, ?_⟩
        · simp only [toggleModules, hnm, if_true, h1]
        · rw [matchingTopics]
          simp only [List.filter, hnm]
          rw [List.flatMap_cons, List.find?_append, h2]
          rfl
      | none =>
        rw [hx] at h
        have h2 : (matchingTopics rest mname).find? (fun t => t.name == tname) = some t0 := by
          simpa [Option.or, matchingTopics] using h
        have htt : toggleTopics m.topics tname = none := by
          refine toggleTopics_none tname m.topics (fun t ht => ?_)
          have := List.find?_eq_none.mp hx t ht
          simpa using this
        obtain ⟨rest', h1, h3⟩ := ih t0 h2
        refine ⟨m :: rest', ?_, ?_⟩
        · simp only [toggleModules, hnm, if_true, htt, h1]
        · rw [matchingTopics]
          simp only [List.filter, hnm]
          rw [List.flatMap_cons, List.find?_append, hx]
          simpa [Option.or, matchingTopics] using h3
    | false =>
      rw [matchingTopics] at h
      simp only [List.filter, hnm] at h
      obtain ⟨rest', h1, h3⟩ := ih t0 (by simpa [matchingTopics] using h)
      refine ⟨m :: rest', ?_, ?_⟩
      · simp only [toggleModules, hnm, Bool.false_eq_true, if_false, h1]
      · rw [matchingTopics]
        simp only [List.filter, hnm]
        simpa [matchingTopics] using h3

/-- Toggling the outer loop twice restores the module list and negates the
returned value. -/
theorem toggleModules_double (mname tname : String) :
    ∀ (modules mods' : List Module) (v : Bool),
      toggleModules modules mname tname = some (mods', v) →
      toggleModules mods' mname tname = some (modules, !v) := by
  intro modules
  induction modules with
  | nil => intro mods' v h; simp [toggleModules] at h
  | cons m rest ih =>
    intro mods' v h
    cases hnm : m.name == mname with
    | true =>
      simp only [toggleModules, hnm, if_true] at h
      cases htt : toggleTopics m.topics tname with
      | some pr =>
        rw [htt] at h
        obtain ⟨ts', v'⟩ := pr
        simp only [Option.some.injEq, Prod.mk.injEq] at h
        obtain ⟨rfl, rfl⟩ := h
        simp only [toggleModules, hnm, if_true]
        rw [toggleTopics_double tname m.topics ts' v' htt]
      | none =>
        rw [htt] at h
        cases hrec : toggleModules rest mname tname with
        | none => rw [hrec] at h; simp at h
        | some pr =>
          rw [hrec] at h
          obtain ⟨rest', v'⟩ := pr
          simp only [Option.some.injEq, Prod.mk.injEq] at h
          obtain ⟨rfl, rfl⟩ := h
          simp only [toggleModules, hnm, if_true, htt]
          rw [ih rest' v' hrec]
    | false =>
      simp only [toggleModules, hnm, Bool.false_eq_true, if_false] at h
      cases hrec : toggleModules rest mname tname with
      | none => rw [hrec] at h; simp at h
      | some pr =>
        rw [hrec] at h
        obtain ⟨rest', v'⟩ := pr
        simp only [Option.some.injEq, Prod.mk.injEq] at h
        obtain ⟨rfl, rfl⟩ := h
        simp only [toggleModules, hnm, Bool.false_eq_true, if_false]
        rw [ih rest' v' hrec]

/-- C5: when a module named `module_name` holds a topic named `topic_name`,
`toggle_systems_topic` negates that topic's `completed` flag, persists the
document, and returns the new value; calling it again restores the original
value (and the original systems document) and returns the original flag.
When no such match exists it returns `false`, raises nothing, and the store —
document and backing file — is exactly unchanged. -/
theorem toggle_systems_topic_spec (s : Store) (today today2 mname tname : String) :
    (∀ t0, findSystemsTopic s.data mname tname = some t0 →
      (toggle_systems_topic s today mname tname).2 = !t0.completed ∧
      findSystemsTopic (toggle_systems_topic s today mname tname).1.data mname tname =
        some { t0 with completed := !t0.completed } ∧
      (toggle_systems_topic s today mname tname).1.file =
        (toggle_systems_topic s today mname tname).1.data ∧
      (toggle_systems_topic (toggle_systems_topic s today mname tname).1
        today2 mname tname).2 = t0.completed ∧
      (toggle_systems_topic (toggle_systems_topic s today mname tname).1
        today2 mname tname).1.data.systems = s.data.systems) ∧
    ((∀ m ∈ s.data.systems.modules, m.name = mname → ∀ t ∈ m.topics, t.name ≠ tname) →
      toggle_systems_topic s today mname tname = (s, false)) := by
  constructor
  · intro t0 h
    rw [findSystemsTopic] at h
    obtain ⟨mods', h1, h2⟩ := toggleModules_find mname tname s.data.systems.modules t0 h
    have htoggle : toggle_systems_topic s today mname tname =
        (save { s with data := { s.data with systems := ⟨mods'⟩ } } today, !t0.completed) := by
      simp only [toggle_systems_topic, h1]
    have h3 := toggleModules_double mname tname s.data.systems.modules mods' (!t0.completed) h1
    refine ⟨by rw [htoggle], ?_, by rw [htoggle]; rfl, ?_, ?_⟩
    · rw [htoggle, findSystemsTopic]
      exact h2
    · rw [htoggle]
      simp only [toggle_systems_topic, save, h3, Bool.not_not]
    · rw [htoggle]
      simp only [toggle_systems_topic, save, h3]
  · intro hmiss
    have hnone : (matchingTopics s.data.systems.modules mname).find?
        (fun t => t.name == tname) = none := by
      rw [List.find?_eq_none]
      intro x hx
      rw [matchingTopics] at hx
      simp only [List.mem_flatMap, List.mem_filter] at hx
      obtain ⟨m, ⟨hm, hname⟩, hxm⟩ := hx
      have := hmiss m hm (by simpa using hname) x hxm
      simpa using this
    simp only [toggle_systems_topic, toggleModules_none mname tname _ hnone]

/-- C5 witness: on the example document, toggling `"TCP"` in `"Networking"`
returns `false` (the flag was `true`), and toggling twice restores the
original systems document. -/
theorem toggle_systems_topic_spec_witness :
    (toggle_systems_topic exStore "2025-06-01" "Networking" "TCP").2 = !true ∧
    (toggle_systems_topic (toggle_systems_topic exStore "2025-06-01" "Networking" "TCP").1
      "2025-06-02" "Networking" "TCP").1.data.systems = exStore.data.systems := by
  have h := (toggle_systems_topic_spec exStore "2025-06-01" "2025-06-02" "Networking" "TCP").1
    ⟨"TCP", true, []⟩ (by decide)
  exact ⟨h.1, h.2.2.2.2⟩

/-! ## C3/C4: session-workspace lemmas for `action_edit` -/

/-- When an entry with the computed filename already exists, `action_edit`
changes nothing at all (it re-edits the recorded path). -/
theorem action_edit_found (st : SolveState) (fs : String → Option String)
    (sol : String × String)
    (h : st.session_solutions.find? (fun q => q.1 == editFilename st.current_problem) =
      some sol) :
    action_edit st fs = st := by
  simp only [action_edit, h]
  cases fileSavedNonEmpty fs sol.2 <;> rfl

/-- With no existing entry and a non-empty file after the editor run, exactly
one entry is appended, at the end, with the fresh path inside the session
directory; the problem and session directory are untouched. -/
theorem action_edit_notfound_saved (st : SolveState) (fs : String → Option String)
    (h : st.session_solutions.find? (fun q => q.1 == editFilename st.current_problem) = none)
    (hs : fileSavedNonEmpty fs (st.temp_dir ++ "/" ++ editFilename st.current_problem) = true) :
    (action_edit st fs).session_solutions =
      st.session_solutions ++
        [(editFilename st.current_problem,
          st.temp_dir ++ "/" ++ editFilename st.current_problem)] ∧
    (action_edit st fs).current_problem = st.current_problem ∧
    (action_edit st fs).temp_dir = st.temp_dir := by
  simp only [action_edit, h, hs]
  exact ⟨rfl, rfl, rfl⟩

/-- With no existing entry and a missing or empty file after the editor run,
`action_edit` changes nothing. -/
theorem action_edit_notfound_unsaved (st : SolveState) (fs : String → Option String)
    (h : st.session_solutions.find? (fun q => q.1 == editFilename st.current_problem) = none)
    (hs : fileSavedNonEmpty fs (st.temp_dir ++ "/" ++ editFilename st.current_problem) = false) :
    action_edit st fs = st := by
  simp only [action_edit, h, hs]
  rfl

/-- The problem and session directory are untouched by any `action_edit`
call. -/
theorem action_edit_frame (st : SolveState) (fs : String → Option String) :
    (action_edit st fs).current_problem = st.current_problem ∧
    (action_edit st fs).temp_dir = st.temp_dir := by
  cases hf : st.session_solutions.find? (fun q => q.1 == editFilename st.current_problem) with
  | some sol => rw [action_edit_found st fs sol hf]; exact ⟨rfl, rfl⟩
  | none =>
    cases hs : fileSavedNonEmpty fs (st.temp_dir ++ "/" ++ editFilename st.current_problem) with
    | true => exact (action_edit_notfound_saved st fs hf hs).2
    | false => rw [action_edit_notfound_unsaved st fs hf hs]; exact ⟨rfl, rfl⟩

/-- C4: with the selected problem unchanged, a second `action_edit` targets
the same file path; an entry for the filename exists → the call changes
nothing at all (no duplication, move, or reorder, whatever the file holds);
no entry yet → exactly one entry is appended on the first call after which
the file is non-empty, and none otherwise; two calls from a state with no
entry leave at most one entry for the filename. -/
theorem action_edit_same_problem_spec (st : SolveState) (fs1 fs2 : String → Option String) :
    (action_edit st fs1).current_problem = st.current_problem ∧
    (action_edit st fs1).temp_dir = st.temp_dir ∧
    editTargetPath (action_edit st fs1) = editTargetPath st ∧
    (∀ sol, st.session_solutions.find?
        (fun q => q.1 == editFilename st.current_problem) = some sol →
      action_edit st fs1 = st) ∧
    (st.session_solutions.find? (fun q => q.1 == editFilename st.current_problem) = none →
      (fileSavedNonEmpty fs1 (st.temp_dir ++ "/" ++ editFilename st.current_problem) = true →
        (action_edit st fs1).session_solutions =
          st.session_solutions ++
            [(editFilename st.current_problem,
              st.temp_dir ++ "/" ++ editFilename st.current_problem)]) ∧
      (fileSavedNonEmpty fs1 (st.temp_dir ++ "/" ++ editFilename st.current_problem) = false →
        (action_edit st fs1).session_solutions = st.session_solutions)) ∧
    (st.session_solutions.countP (fun q => q.1 == editFilename st.current_problem) = 0 →
      (action_edit (action_edit st fs1) fs2).session_solutions.countP
        (fun q => q.1 == editFilename st.current_problem) ≤ 1) := by
  obtain ⟨hc, hd⟩ := action_edit_frame st fs1
  refine ⟨hc, hd, ?_, ?_, ?_, ?_⟩
  · -- same target path on the second call
    cases hf : st.session_solutions.find?
        (fun q => q.1 == editFilename st.current_problem) with
    | some sol => rw [action_edit_found st fs1 sol hf]
    | none =>
      cases hs : fileSavedNonEmpty fs1
          (st.temp_dir ++ "/" ++ editFilename st.current_problem) with
      | true =>
        have he := (action_edit_notfound_saved st fs1 hf hs).1
        simp only [editTargetPath, hc, hd, he, List.find?_append, hf]
        simp [List.find?, Option.or]
      | false => rw [action_edit_notfound_unsaved st fs1 hf hs]
  · exact fun sol h => action_edit_found st fs1 sol h
  · intro hf
    refine ⟨fun hs => (action_edit_notfound_saved st fs1 hf hs).1,
      fun hs => by rw [action_edit_notfound_unsaved st fs1 hf hs]⟩
  · intro h0
    have hf : st.session_solutions.find?
        (fun q => q.1 == editFilename st.current_problem) = none :=
      List.find?_eq_none.mpr (fun x hx => by
        have := List.countP_eq_zero.mp h0 x hx
        simpa using this)
    cases hs : fileSavedNonEmpty fs1
        (st.temp_dir ++ "/" ++ editFilename st.current_problem) with
    | true =>
      have he := (action_edit_notfound_saved st fs1 hf hs).1
      have hcount1 : (action_edit st fs1).session_solutions.countP
          (fun q => q.1 == editFilename st.current_problem) = 1 := by
        rw [he, List.countP_append, h0]
        simp [List.countP_cons]
      have hf2 : (action_edit st fs1).session_solutions.find?
          (fun q => q.1 == editFilename ((action_edit st fs1).current_problem)) =
          some (editFilename st.current_problem,
            st.temp_dir ++ "/" ++ editFilename st.current_problem) := by
        rw [hc, he, List.find?_append, hf]
        simp [List.find?, Option.or]
      rw [action_edit_found (action_edit st fs1) fs2 _ hf2, hcount1]
    | false =>
      rw [action_edit_notfound_unsaved st fs1 hf hs]
      cases hs2 : fileSavedNonEmpty fs2
          (st.temp_dir ++ "/" ++ editFilename st.current_problem) with
      | true =>
        have he := (action_edit_notfound_saved st fs2 hf hs2).1
        rw [he, List.countP_append, h0]
        simp [List.countP_cons]
      | false =>
        rw [action_edit_notfound_unsaved st fs2 hf hs2, h0]
        exact Nat.zero_le 1

/-- Solve-mode screen state with "Two Sum" selected and an empty workspace. -/
def exSolveTwoSum : SolveState := ⟨some ⟨"Two Sum", "Arrays", "Phase 1", 1⟩, "", [], "tmp", ""⟩

/-- Filesystem oracle with a non-empty file at the "Two Sum" solution path. -/
def fsTwoSum : String → Option String :=
  fun p => if p == "tmp/Two_Sum.py" then some "def solve" else none

/-- C4 witness: editing "Two Sum" twice records exactly one entry and the
target path is the same on both calls. -/
theorem action_edit_same_problem_spec_witness :
    (action_edit exSolveTwoSum fsTwoSum).session_solutions =
      [("Two_Sum.py", "tmp/Two_Sum.py")] ∧
    editTargetPath (action_edit exSolveTwoSum fsTwoSum) = editTargetPath exSolveTwoSum ∧
    (action_edit (action_edit exSolveTwoSum fsTwoSum) fsTwoSum).session_solutions.countP
      (fun q => q.1 == editFilename exSolveTwoSum.current_problem) ≤ 1 := by
  have h := action_edit_same_problem_spec exSolveTwoSum fsTwoSum fsTwoSum
  refine ⟨?_, h.2.2.1, h.2.2.2.2.2 (by decide)⟩
  rw [(h.2.2.2.2.1 (by decide)).1 (by decide)]
  decide

/-- C3 amended: two solves whose computed solution filenames differ, each
saved non-empty, leave exactly the two entries in first-saved order. -/
theorem action_edit_two_problems_spec
    (stA : SolveState) (A B : CurrentProblem) (st2 : SolveState)
    (fs1 fs2 : String → Option String)
    (hA0 : stA.session_solutions = [])
    (hAcur : stA.current_problem = some A)
    (hsave1 : fileSavedNonEmpty fs1 (stA.temp_dir ++ "/" ++ editFilename (some A)) = true)
    (h2entries : st2.session_solutions = (action_edit stA fs1).session_solutions)
    (h2dir : st2.temp_dir = stA.temp_dir)
    (h2cur : st2.current_problem = some B)
    (hne : editFilename (some A) ≠ editFilename (some B))
    (hsave2 : fileSavedNonEmpty fs2 (stA.temp_dir ++ "/" ++ editFilename (some B)) = true) :
    (action_edit st2 fs2).session_solutions =
      [(editFilename (some A), stA.temp_dir ++ "/" ++ editFilename (some A)),
       (editFilename (some B), stA.temp_dir ++ "/" ++ editFilename (some B))] := by
  have hbe : (editFilename (some A) == editFilename (some B)) = false :=
    beq_eq_false_iff_ne.mpr hne
  have hfA : stA.session_solutions.find?
      (fun q => q.1 == editFilename stA.current_problem) = none := by
    rw [hA0]; rfl
  have hsave1' : fileSavedNonEmpty fs1
      (stA.temp_dir ++ "/" ++ editFilename stA.current_problem) = true := by
    rw [hAcur]; exact hsave1
  have h1 := (action_edit_notfound_saved stA fs1 hfA hsave1').1
  rw [hA0, List.nil_append, hAcur] at h1
  have hfB : st2.session_solutions.find?
      (fun q => q.1 == editFilename st2.current_problem) = none := by
    rw [h2entries, h1, h2cur]
    simp [List.find?, hbe]
  have hsave2' : fileSavedNonEmpty fs2
      (st2.temp_dir ++ "/" ++ editFilename st2.current_problem) = true := by
    rw [h2dir, h2cur]; exact hsave2
  have h2 := (action_edit_notfound_saved st2 fs2 hfB hsave2').1
  rw [h2, h2entries, h1, h2cur, h2dir]
  rfl

/-- C3 witness: solving "Two Sum" and then "3Sum", both saved non-empty,
yields the two entries in that order. -/
theorem action_edit_two_problems_spec_witness :
    (action_edit
      { action_edit exSolveTwoSum fsTwoSum with
          current_problem := some ⟨"3Sum", "Arrays", "Phase 1", 1⟩ }
      (fun p => if p == "tmp/3Sum.py" then some "def threeSum" else none)).session_solutions =
      [(editFilename (some ⟨"Two Sum", "Arrays", "Phase 1", 1⟩),
        "tmp" ++ "/" ++ editFilename (some ⟨"Two Sum", "Arrays", "Phase 1", 1⟩)),
       (editFilename (some ⟨"3Sum", "Arrays", "Phase 1", 1⟩),
        "tmp" ++ "/" ++ editFilename (some ⟨"3Sum", "Arrays", "Phase 1", 1⟩))] := by
  refine action_edit_two_problems_spec exSolveTwoSum
    ⟨"Two Sum", "Arrays", "Phase 1", 1⟩ ⟨"3Sum", "Arrays", "Phase 1", 1⟩
    { action_edit exSolveTwoSum fsTwoSum with
        current_problem := some ⟨"3Sum", "Arrays", "Phase 1", 1⟩ }
    fsTwoSum (fun p => if p == "tmp/3Sum.py" then some "def threeSum" else none)
    rfl rfl (by decide) rfl rfl rfl (by decide) (by decide)

/-- C3 counterexample: the problem names "a b" and "a_b" are distinct but
sanitize to the same filename `a_b.py`; after solving "a b" (saved non-empty)
and then "a_b" (its file at the shared path is non-empty), the workspace holds
one entry, not two — the second problem reused the first problem's entry. -/
theorem action_edit_name_collision_cex :
    ("a b" : String) ≠ "a_b" ∧
    fileSavedNonEmpty (fun p => if p == "tmp/a_b.py" then some "x" else none) "tmp/a_b.py"
      = true ∧
    (action_edit
      { action_edit ⟨some ⟨"a b", "T", "P", 1⟩, "", [], "tmp", ""⟩
          (fun p => if p == "tmp/a_b.py" then some "x" else none) with
          current_problem := some ⟨"a_b", "T", "P", 1⟩ }
      (fun p => if p == "tmp/a_b.py" then some "x" else none)).session_solutions.length
      = 1 := by
  refine ⟨by decide, by decide, ?_⟩
  decide

/-! ## C1/C2: `add_problem` lemmas -/

/-- A successful `find?` splits the list at the first hit. -/
theorem find?_decomp {α : Type _} (p : α → Bool) :
    ∀ (l : List α) (a : α), l.find? p = some a →
      p a = true ∧ ∃ pre post, l = pre ++ a :: post ∧ ∀ x ∈ pre, p x = false := by
  intro l
  induction l with
  | nil => intro a h; simp at h
  | cons x xs ih =>
    intro a h
    cases hx : p x with
    | true =>
      simp only [List.find?, hx] at h
      obtain rfl : x = a := by injection h
      exact ⟨hx, [], xs, rfl, fun y hy => absurd hy (List.not_mem_nil y)⟩
    | false =>
      simp only [List.find?, hx] at h
      obtain ⟨ha, pre, post, hsplit, hpre⟩ := ih a h
      refine ⟨ha, x :: pre, post, by rw [hsplit]; rfl, fun y hy => ?_⟩
      rcases List.mem_cons.mp hy with rfl | hy'
      · exact hx
      · exact hpre y hy'

/-- `find?` on a list split at its first hit returns that hit. -/
theorem find?_append_first {α : Type _} (p : α → Bool) :
    ∀ (pre : List α) (a : α) (post : List α),
      (∀ x ∈ pre, p x = false) → p a = true →
      (pre ++ a :: post).find? p = some a := by
  intro pre
  induction pre with
  | nil => intro a post _ ha; simp [List.find?, ha]
  | cons x xs ih =>
    intro a post hpre ha
    have hx := hpre x (List.mem_cons_self x xs)
    simp only [List.cons_append, List.find?, hx]
    exact ih a post (fun y hy => hpre y (List.mem_cons_of_mem x hy)) ha

/-- Topics that all miss the name leave the topic scan a no-op. -/
theorem updateTopicList_nomatch (tn pn : String) :
    ∀ topics : List Topic, (∀ t ∈ topics, (t.name == tn) = false) →
      updateTopicList topics tn pn = topics := by
  intro topics
  induction topics with
  | nil => intro _; rfl
  | cons t rest ih =>
    intro h
    have ht := h t (List.mem_cons_self t rest)
    simp only [updateTopicList, ht, Bool.false_eq_true, if_false]
    rw [ih (fun x hx => h x (List.mem_cons_of_mem t hx))]

/-- The topic scan rewrites exactly the first name match (and then breaks):
an already-present problem leaves the topic untouched, a new one is appended
with `solved` reset to the new length. -/
theorem updateTopicList_decomp (tn pn : String) (tpre : List Topic) (t0 : Topic)
    (tpost : List Topic) (hpre : ∀ t ∈ tpre, (t.name == tn) = false)
    (h0 : (t0.name == tn) = true) :
    updateTopicList (tpre ++ t0 :: tpost) tn pn =
      tpre ++ (if t0.problems.contains pn then t0
        else { t0 with problems := t0.problems ++ [pn],
                       solved := ((t0.problems ++ [pn]).length : Int) }) :: tpost := by
  induction tpre with
  | nil => simp only [List.nil_append, updateTopicList, h0, if_true]
  | cons t rest ih =>
    have ht := hpre t (List.mem_cons_self t rest)
    simp only [List.cons_append, updateTopicList, ht, Bool.false_eq_true, if_false]
    exact congrArg (List.cons t) (ih (fun x hx => hpre x (List.mem_cons_of_mem t hx)))

/-- Phases that all miss the id leave the phase scan a no-op. -/
theorem updatePhaseList_nomatch (pid : Int) (tn pn : String) :
    ∀ phases : List Phase, (∀ ph ∈ phases, (ph.id == pid) = false) →
      updatePhaseList phases pid tn pn = phases := by
  intro phases
  induction phases with
  | nil => intro _; rfl
  | cons ph rest ih =>
    intro h
    have hph := h ph (List.mem_cons_self ph rest)
    simp only [updatePhaseList, hph, Bool.false_eq_true, if_false]
    rw [ih (fun x hx => h x (List.mem_cons_of_mem ph hx))]

/-- The phase scan rewrites exactly the first id match (and then breaks),
running the topic scan and recomputing that phase's `solved` unconditionally. -/
theorem updatePhaseList_decomp (pid : Int) (tn pn : String) (ppre : List Phase)
    (ph0 : Phase) (ppost : List Phase)
    (hpre : ∀ ph ∈ ppre, (ph.id == pid) = false) (h0 : (ph0.id == pid) = true) :
    updatePhaseList (ppre ++ ph0 :: ppost) pid tn pn =
      ppre ++ { ph0 with topics := updateTopicList ph0.topics tn pn,
                         solved := topicsSolvedSum (updateTopicList ph0.topics tn pn) }
        :: ppost := by
  induction ppre with
  | nil => simp only [List.nil_append, updatePhaseList, h0, if_true]
  | cons ph rest ih =>
    have hph := hpre ph (List.mem_cons_self ph rest)
    simp only [List.cons_append, updatePhaseList, hph, Bool.false_eq_true, if_false]
    exact congrArg (List.cons ph) (ih (fun x hx => hpre x (List.mem_cons_of_mem ph hx)))

/-- The phase the scan matched always comes out with `solved` equal to the
sum over its topics — the recomputation is unconditional. -/
theorem updatePhaseList_find_solved (pid : Int) (tn pn : String) :
    ∀ (phases : List Phase) (ph' : Phase),
      (updatePhaseList phases pid tn pn).find? (fun ph => ph.id == pid) = some ph' →
      ph'.solved = topicsSolvedSum ph'.topics := by
  intro phases
  induction phases with
  | nil => intro ph' h; simp [updatePhaseList] at h
  | cons ph rest ih =>
    intro ph' h
    cases hph : ph.id == pid with
    | true =>
      simp only [updatePhaseList, hph, if_true] at h
      simp only [List.find?, hph] at h
      obtain rfl : _ = ph' := by injection h
      rfl
    | false =>
      simp only [updatePhaseList, hph, Bool.false_eq_true, if_false] at h
      simp only [List.find?, hph] at h
      exact ih ph' h

/-- Under the phase-sum invariant, a call whose topic lookup can never hit
(wrong phase id, or no such topic in the phase with that id) leaves the phase
list exactly as it was. -/
theorem updatePhaseList_miss (pid : Int) (tn pn : String) :
    ∀ phases : List Phase,
      (∀ ph ∈ phases, ph.solved = topicsSolvedSum ph.topics) →
      (∀ ph ∈ phases, (ph.id == pid) = true → ∀ t ∈ ph.topics, (t.name == tn) = false) →
      updatePhaseList phases pid tn pn = phases := by
  intro phases
  induction phases with
  | nil => intro _ _; rfl
  | cons ph rest ih =>
    intro hinv hmiss
    cases hph : ph.id == pid with
    | true =>
      have htopics := updateTopicList_nomatch tn pn ph.topics
        (hmiss ph (List.mem_cons_self ph rest) hph)
      simp only [updatePhaseList, hph, if_true, htopics]
      rw [← hinv ph (List.mem_cons_self ph rest)]
    | false =>
      simp only [updatePhaseList, hph, Bool.false_eq_true, if_false]
      rw [ih (fun x hx => hinv x (List.mem_cons_of_mem ph hx))
        (fun x hx => hmiss x (List.mem_cons_of_mem ph hx))]

/-- C2: on a document satisfying the §3 sum invariants, an `add_problem` call
whose phase id matches no phase, or whose topic name matches no topic of the
matched phase, leaves the whole `leetcode` object (every problems list and
every solved counter) numerically unchanged and the systems object untouched,
yet still persists via `save()`; and on every call whatsoever the
recomputation runs unconditionally: the stored total is the sum over the
stored phases, the document is persisted, and the matched phase (when one
exists) has `solved` equal to the sum over its topics. -/
theorem add_problem_lookup_miss_spec (s : Store) (today : String) (pid : Int)
    (tn pn : String)
    (hinv : SpecInvariants s.data)
    (hmiss : ∀ ph ∈ s.data.leetcode.phases, ph.id = pid → ∀ t ∈ ph.topics, t.name ≠ tn) :
    (add_problem s today pid tn pn).data.leetcode = s.data.leetcode ∧
    (add_problem s today pid tn pn).data.systems = s.data.systems ∧
    (add_problem s today pid tn pn).file = (add_problem s today pid tn pn).data ∧
    (∀ (pid' : Int) (tn' pn' : String),
      (add_problem s today pid' tn' pn').data.leetcode.total_solved =
        phasesSolvedSum (add_problem s today pid' tn' pn').data.leetcode.phases ∧
      (add_problem s today pid' tn' pn').file = (add_problem s today pid' tn' pn').data ∧
      ∀ ph', findPhase (add_problem s today pid' tn' pn').data pid' = some ph' →
        ph'.solved = topicsSolvedSum ph'.topics) := by
  have hmiss' : ∀ ph ∈ s.data.leetcode.phases, (ph.id == pid) = true →
      ∀ t ∈ ph.topics, (t.name == tn) = false := by
    intro ph hph hid t ht
    exact beq_eq_false_iff_ne.mpr (hmiss ph hph (beq_iff_eq.mp hid) t ht)
  have hphases : updatePhaseList s.data.leetcode.phases pid tn pn =
      s.data.leetcode.phases :=
    updatePhaseList_miss pid tn pn s.data.leetcode.phases hinv.1 hmiss'
  refine ⟨?_, rfl, rfl, ?_⟩
  · show ({ s.data.leetcode with
      phases := updatePhaseList s.data.leetcode.phases pid tn pn
      total_solved := phasesSolvedSum (updatePhaseList s.data.leetcode.phases pid tn pn) }
        : Leetcode) = s.data.leetcode
    rw [hphases, ← hinv.2.2]
  · intro pid' tn' pn'
    exact ⟨rfl, rfl, fun ph' h => updatePhaseList_find_solved pid' tn' pn'
      s.data.leetcode.phases ph' h⟩

/-- C2 witness: an add aimed at a missing phase id (7) on the example
document leaves `leetcode` unchanged and persists. -/
theorem add_problem_lookup_miss_spec_witness :
    (add_problem exStore "2025-06-01" 7 "Arrays" "LRU Cache").data.leetcode =
      exStore.data.leetcode ∧
    (add_problem exStore "2025-06-01" 7 "Arrays" "LRU Cache").file =
      (add_problem exStore "2025-06-01" 7 "Arrays" "LRU Cache").data := by
  have h := add_problem_lookup_miss_spec exStore "2025-06-01" 7 "Arrays" "LRU Cache"
    (by decide) (by decide)
  exact ⟨h.1, h.2.2.1⟩

/-- Splitting the phase `solved` sum at one phase. -/
theorem phasesSolvedSum_split (a : List Phase) (b : Phase) (c : List Phase) :
    phasesSolvedSum (a ++ b :: c) = phasesSolvedSum a + b.solved + phasesSolvedSum c := by
  simp [phasesSolvedSum]
  ring

/-- Splitting the topic `solved` sum at one topic. -/
theorem topicsSolvedSum_split (a : List Topic) (b : Topic) (c : List Topic) :
    topicsSolvedSum (a ++ b :: c) = topicsSolvedSum a + b.solved + topicsSolvedSum c := by
  simp [topicsSolvedSum]
  ring

/-- C1: on a document satisfying the §3 invariants, when the phase with the
given id exists and holds a topic with the given name, `add_problem` leaves
that topic containing the problem exactly once, with `solved = length
(problems)`, the phase's `solved` the sum over its topics and the stored total
the sum over all phases; the first call on a topic not already holding the
problem raises the total by exactly 1, a call on a topic already holding it
leaves the total unchanged, and a repeated identical call equals a single
call (repeats add nothing further). -/
theorem add_problem_insert_spec (s : Store) (today today2 : String) (pid : Int)
    (tn pn : String) (ph0 : Phase) (t0 : Topic)
    (hinv : SpecInvariants s.data)
    (hph : findPhase s.data pid = some ph0)
    (ht : findTopic ph0 tn = some t0) :
    ∃ ph1 t1,
      findPhase (add_problem s today pid tn pn).data pid = some ph1 ∧
      findTopic ph1 tn = some t1 ∧
      t1.problems.count pn = 1 ∧
      t1.solved = (t1.problems.length : Int) ∧
      ph1.solved = topicsSolvedSum ph1.topics ∧
      (add_problem s today pid tn pn).data.leetcode.total_solved =
        phasesSolvedSum (add_problem s today pid tn pn).data.leetcode.phases ∧
      (pn ∉ t0.problems →
        (add_problem s today pid tn pn).data.leetcode.total_solved =
          s.data.leetcode.total_solved + 1) ∧
      (pn ∈ t0.problems →
        (add_problem s today pid tn pn).data.leetcode.total_solved =
          s.data.leetcode.total_solved) ∧
      add_problem (add_problem s today pid tn pn) today2 pid tn pn =
        add_problem s today2 pid tn pn := by
  obtain ⟨hp0, ppre, ppost, hP, hpreP⟩ := find?_decomp _ _ _ hph
  obtain ⟨ht0, tpre, tpost, hT, hpreT⟩ := find?_decomp _ _ _ ht
  have hph0mem : ph0 ∈ s.data.leetcode.phases := by
    rw [hP]; exact List.mem_append_right _ (List.mem_cons_self _ _)
  have ht0mem : t0 ∈ ph0.topics := by
    rw [hT]; exact List.mem_append_right _ (List.mem_cons_self _ _)
  obtain ⟨hts, hnd⟩ := hinv.2.1 ph0 hph0mem t0 ht0mem
  have hifneg : t0.problems.contains pn = false → ¬(t0.problems.contains pn = true) :=
    fun hcf h => Bool.false_ne_true (hcf ▸ h)
  set t1 := (if t0.problems.contains pn then t0
      else { t0 with problems := t0.problems ++ [pn],
                     solved := ((t0.problems ++ [pn]).length : Int) }) with ht1def
  have hutl : updateTopicList ph0.topics tn pn = tpre ++ t1 :: tpost := by
    rw [hT]; exact updateTopicList_decomp tn pn tpre t0 tpost hpreT ht0
  set ph1 := ({ ph0 with topics := tpre ++ t1 :: tpost,
                         solved := topicsSolvedSum (tpre ++ t1 :: tpost) } : Phase)
    with hph1def
  have hupl : updatePhaseList s.data.leetcode.phases pid tn pn = ppre ++ ph1 :: ppost := by
    rw [hP, updatePhaseList_decomp pid tn pn ppre ph0 ppost hpreP hp0, hutl]
  have ht1name : (t1.name == tn) = true := by
    rw [ht1def]; split <;> exact ht0
  have ht1id : (ph1.id == pid) = true := hp0
  have ht1solved : t1.solved = (t1.problems.length : Int) := by
    cases hc : t0.problems.contains pn with
    | true => rw [ht1def, if_pos hc]; exact hts
    | false => rw [ht1def, if_neg (hifneg hc)]
  have hph1solved : ph1.solved = topicsSolvedSum (tpre ++ t1 :: tpost) := rfl
  have htotal : s.data.leetcode.total_solved =
      phasesSolvedSum ppre + ph0.solved + phasesSolvedSum ppost := by
    rw [hinv.2.2, hP, phasesSolvedSum_split]
  have hph0solved : ph0.solved =
      topicsSolvedSum tpre + t0.solved + topicsSolvedSum tpost := by
    rw [hinv.1 ph0 hph0mem, hT, topicsSolvedSum_split]
  have htotal' : (add_problem s today pid tn pn).data.leetcode.total_solved =
      phasesSolvedSum ppre + (topicsSolvedSum tpre + t1.solved + topicsSolvedSum tpost) +
        phasesSolvedSum ppost := by
    show phasesSolvedSum (updatePhaseList s.data.leetcode.phases pid tn pn) = _
    rw [hupl, phasesSolvedSum_split, hph1solved, topicsSolvedSum_split]
  refine ⟨ph1, t1, ?_, ?_, ?_, ht1solved, hph1solved, rfl, ?_, ?_, ?_⟩
  · show (updatePhaseList s.data.leetcode.phases pid tn pn).find?
      (fun ph => ph.id == pid) = some ph1
    rw [hupl]
    exact find?_append_first _ ppre ph1 ppost hpreP ht1id
  · show (tpre ++ t1 :: tpost).find? (fun t => t.name == tn) = some t1
    exact find?_append_first _ tpre t1 tpost hpreT ht1name
  · cases hc : t0.problems.contains pn with
    | true =>
      rw [ht1def, if_pos hc]
      exact List.count_eq_one_of_mem hnd (List.elem_iff.mp hc)
    | false =>
      rw [ht1def, if_neg (hifneg hc)]
      have h0 : t0.problems.count pn = 0 := List.count_eq_zero.mpr
        (fun hm => absurd (List.elem_iff.mpr hm) (hifneg hc))
      simp [List.count_append, h0]
  · intro hnotmem
    have hc : t0.problems.contains pn = false := by
      cases hcc : t0.problems.contains pn
      · rfl
      · exact absurd (List.elem_iff.mp hcc) hnotmem
    have h1 : t1.solved = t0.solved + 1 := by
      rw [ht1def, if_neg (hifneg hc)]
      show ((t0.problems ++ [pn]).length : Int) = t0.solved + 1
      rw [hts, List.length_append, List.length_singleton]
      push_cast
      ring
    rw [htotal', htotal, hph0solved, h1]
    ring
  · intro hmem
    have hc : t0.problems.contains pn = true := List.elem_iff.mpr hmem
    have h1 : t1.solved = t0.solved := by rw [ht1def, if_pos hc]
    rw [htotal', htotal, hph0solved, h1]
  · have hcontains : t1.problems.contains pn = true := by
      cases hc : t0.problems.contains pn with
      | true => rw [ht1def, if_pos hc]; exact hc
      | false =>
        rw [ht1def, if_neg (hifneg hc)]
        exact List.elem_iff.mpr (List.mem_append_right _ (List.mem_singleton.mpr rfl))
    have hutl2 : updateTopicList (tpre ++ t1 :: tpost) tn pn = tpre ++ t1 :: tpost := by
      rw [updateTopicList_decomp tn pn tpre t1 tpost hpreT ht1name, if_pos hcontains]
    have hupl2 : updatePhaseList (ppre ++ ph1 :: ppost) pid tn pn = ppre ++ ph1 :: ppost := by
      rw [updatePhaseList_decomp pid tn pn ppre ph1 ppost hpreP ht1id]
      have hx : updateTopicList ph1.topics tn pn = ph1.topics := hutl2
      rw [hx]
    show add_problem (add_problem s today pid tn pn) today2 pid tn pn =
      add_problem s today2 pid tn pn
    simp only [add_problem, save]
    rw [hupl, hupl2]

/-- C1 witness: adding the new problem "3Sum" to topic "Arrays" of phase 1 on
the invariant-satisfying example document raises the stored total by exactly
1, and an identical repeat call produces the very same store. -/
theorem add_problem_insert_spec_witness :
    SpecInvariants exStore.data ∧
    (add_problem exStore "2025-06-01" 1 "Arrays" "3Sum").data.leetcode.total_solved =
      exStore.data.leetcode.total_solved + 1 ∧
    add_problem (add_problem exStore "2025-06-01" 1 "Arrays" "3Sum")
        "2025-06-02" 1 "Arrays" "3Sum" =
      add_problem exStore "2025-06-02" 1 "Arrays" "3Sum" := by
  have h := add_problem_insert_spec exStore "2025-06-01" "2025-06-02" 1 "Arrays" "3Sum"
    ⟨1, "Phase 1", 1, 5, [⟨"Arrays", 1, 3, ["Two Sum"]⟩]⟩ ⟨"Arrays", 1, 3, ["Two Sum"]⟩
    (by decide) (by decide) (by decide)
  obtain ⟨ph1, t1, _, _, _, _, _, _, hplus, _, hidem⟩ := h
  exact ⟨by decide, hplus (by decide), hidem⟩

end Dashboard
